import Mathlib

/-!
Verification development for the image-batch dispatch system
(worker pool, partitioner, shard store, streaming dispatcher).

Each definition is a shallow embedding of a function of the source:
* `getPartition`, `DistributedStorage.*` embed the `DistributedStorage`
  class (distributed-storage module);
* `md5FirstByte`, `ingestPartition` embed the bulk-ingest route's
  partition computation `md5(buffer).digest()[0] % 8`;
* `getNextWorker`, `PoolStep` embed the `WorkerPool` class
  (worker-pool module);
* `DStep` embeds the streaming dispatcher of the process route
  (stats counters and `result` event emission).

JavaScript numbers are modelled by `Nat`/`Int` with explicit
two's-complement truncation (`toInt32`) where the source relies on
32-bit semantics; JS `Map`s by association lists with overwrite-on-set;
fallible reads by `Option`.
-/

set_option maxRecDepth 100000

namespace BigData

/-! ### Partitioner (DistributedStorage.getPartition)

The source computes, over the key's UTF-16 code units:
`hash = (hash << 5) - hash + char; hash = hash & hash` (ToInt32 each step),
then `Math.abs(hash) % partitionCount`. -/

/-- Two's-complement truncation of an integer to signed 32 bits,
the effect of JavaScript's `| 0`-style coercions (`<<`, `&`). -/
def toInt32 (n : Int) : Int := (n + 2 ^ 31) % 2 ^ 32 - 2 ^ 31

/-- One step of the hash loop: `hash = toInt32(toInt32(hash << 5) - hash + c)`.
`hash << 5` is `toInt32 (hash * 32)`; the final `hash & hash` is `toInt32`. -/
def hashStep (h : Int) (c : Nat) : Int := toInt32 (toInt32 (h * 2 ^ 5) - h + (c : Int))

/-- The full hash of a key (list of character codes), starting from 0. -/
def hashOf (key : List Nat) : Int := key.foldl hashStep 0

/-- Embedding of `DistributedStorage.getPartition`:
absolute value of the 32-bit hash, modulo the partition count. -/
def getPartition (partitionCount : Nat) (key : List Nat) : Nat :=
  (hashOf key).natAbs % partitionCount

/-- Character codes of a string, matching `charCodeAt` on the
basic-multilingual-plane keys used by the system. -/
def codes (s : String) : List Nat := s.data.map Char.toNat

/-! ### Shard store (DistributedStorage) -/

/-- Embedding of the `StoredItem` interface. -/
structure StoredItem (α : Type) where
  key : List Nat
  data : α
  timestamp : Nat
  partition : Nat
  isReplica : Bool
  primaryPartition : Option Nat
deriving DecidableEq

/-- Embedding of the `Partition` interface: one shard's key→item map
plus its maintained counters. -/
structure Partition (α : Type) where
  id : Nat
  data : List (List Nat × StoredItem α)
  size : Nat
  itemCount : Nat
deriving DecidableEq

/-- JS `Map.set`: overwrite the entry for `k` if present, else append. -/
def mapSet {α : Type} (m : List (List Nat × StoredItem α)) (k : List Nat)
    (v : StoredItem α) : List (List Nat × StoredItem α) :=
  match m with
  | [] => [(k, v)]
  | (k2, v2) :: rest => if k2 = k then (k, v) :: rest else (k2, v2) :: mapSet rest k v

/-- JS `Map.get`: first (unique) entry for `k`, if any. -/
def mapGet {α : Type} (m : List (List Nat × StoredItem α)) (k : List Nat) :
    Option (StoredItem α) :=
  match m with
  | [] => none
  | (k2, v2) :: rest => if k2 = k then some v2 else mapGet rest k

/-- Embedding of the `DistributedStorage` class state. -/
structure DistributedStorage (α : Type) where
  partitionCount : Nat
  replicationFactor : Nat
  partitions : List (Partition α)
deriving DecidableEq

/-- Embedding of the constructor: initialize `partitionCount` empty
partitions with ids `0 .. partitionCount-1`.  The source performs no
validation of the replication factor against the partition count. -/
def DistributedStorage.init (α : Type) (partitionCount replicationFactor : Nat) :
    DistributedStorage α :=
  { partitionCount := partitionCount
    replicationFactor := replicationFactor
    partitions := (List.range partitionCount).map
      (fun i => { id := i, data := [], size := 0, itemCount := 0 }) }

/-- Apply `f` to the partition whose id is `i` (JS `partitions.get(i)`
followed by in-place mutation). -/
def updatePartition {α : Type} (ps : List (Partition α)) (i : Nat)
    (f : Partition α → Partition α) : List (Partition α) :=
  ps.map (fun p => if p.id = i then f p else p)

/-- Embedding of `DistributedStorage.store`: write the item into the
primary partition (bumping `itemCount` and `size`, where `sz` stands for
`JSON.stringify(data).length`), then write a replica copy into the next
`replicationFactor - 1` partitions, wrapping modulo the partition count;
the replica writes touch only the `data` map, not the counters. -/
def DistributedStorage.store {α : Type} (s : DistributedStorage α) (sz : α → Nat)
    (now : Nat) (key : List Nat) (payload : α) : DistributedStorage α :=
  let primary := getPartition s.partitionCount key
  let ps1 := updatePartition s.partitions primary (fun p =>
    { p with
      data := mapSet p.data key
        { key := key, data := payload, timestamp := now, partition := primary
          isReplica := false, primaryPartition := none }
      itemCount := p.itemCount + 1
      size := p.size + sz payload })
  let ps2 := (List.range (s.replicationFactor - 1)).foldl (fun ps j =>
    let replicaPartition := (primary + (j + 1)) % s.partitionCount
    updatePartition ps replicaPartition (fun p =>
      { p with
        data := mapSet p.data key
          { key := key, data := payload, timestamp := now
            partition := replicaPartition, isReplica := true
            primaryPartition := some primary } })) ps1
  { s with partitions := ps2 }

/-- Embedding of `DistributedStorage.retrieve`: read from the key's
primary partition; `none` models the thrown not-found error. -/
def DistributedStorage.retrieve {α : Type} (s : DistributedStorage α)
    (key : List Nat) : Option α :=
  let pid := getPartition s.partitionCount key
  match s.partitions.find? (fun p => p.id = pid) with
  | none => none
  | some p => (mapGet p.data key).map (fun it => it.data)

/-- One row of `getStats().partitions`. -/
structure PartitionStat where
  id : Nat
  itemCount : Nat
  size : Nat
deriving DecidableEq

/-- Embedding of the `getStats` result. -/
structure StorageStats where
  totalPartitions : Nat
  replicationFactor : Nat
  partitions : List PartitionStat
  totalItems : Nat
  totalSize : Nat
deriving DecidableEq

/-- Embedding of `DistributedStorage.getStats`. -/
def DistributedStorage.getStats {α : Type} (s : DistributedStorage α) : StorageStats :=
  { totalPartitions := s.partitionCount
    replicationFactor := s.replicationFactor
    partitions := s.partitions.map (fun p =>
      { id := p.id, itemCount := p.itemCount, size := p.size })
    totalItems := (s.partitions.map (fun p => p.itemCount)).sum
    totalSize := (s.partitions.map (fun p => p.size)).sum }

/-- Whether a partition's map holds an entry for `key`. -/
def Partition.hasKey {α : Type} (p : Partition α) (key : List Nat) : Bool :=
  (mapGet p.data key).isSome

/-- A sequence of `store` calls, each a (timestamp, key, payload) triple. -/
def storeAll {α : Type} (s : DistributedStorage α) (sz : α → Nat)
    (ops : List (Nat × List Nat × α)) : DistributedStorage α :=
  ops.foldl (fun acc op => acc.store sz op.1 op.2.1 op.2.2) s

/-! ### Bulk-ingest partition computation (ingest route)

The ingest route assigns
`partition = crypto.createHash(md5).update(buffer).digest()[0] % 8`,
a function of the image bytes.  MD5 is embedded below (RFC 1321):
padding, 64-round compression, little-endian digest; only the first
digest byte (the low byte of the final `a` register) is consumed. -/

/-- Per-round shift amounts of MD5. -/
def mdS : List Nat :=
  [7, 12, 17, 22, 7, 12, 17, 22, 7, 12, 17, 22, 7, 12, 17, 22,
   5, 9, 14, 20, 5, 9, 14, 20, 5, 9, 14, 20, 5, 9, 14, 20,
   4, 11, 16, 23, 4, 11, 16, 23, 4, 11, 16, 23, 4, 11, 16, 23,
   6, 10, 15, 21, 6, 10, 15, 21, 6, 10, 15, 21, 6, 10, 15, 21]

/-- Per-round additive constants of MD5 (floor of 2^32 * abs (sin (i+1))). -/
def mdK : List Nat :=
  [0xd76aa478, 0xe8c7b756, 0x242070db, 0xc1bdceee,
   0xf57c0faf, 0x4787c62a, 0xa8304613, 0xfd469501,
   0x698098d8, 0x8b44f7af, 0xffff5bb1, 0x895cd7be,
   0x6b901122, 0xfd987193, 0xa679438e, 0x49b40821,
   0xf61e2562, 0xc040b340, 0x265e5a51, 0xe9b6c7aa,
   0xd62f105d, 0x02441453, 0xd8a1e681, 0xe7d3fbc8,
   0x21e1cde6, 0xc33707d6, 0xf4d50d87, 0x455a14ed,
   0xa9e3e905, 0xfcefa3f8, 0x676f02d9, 0x8d2a4c8a,
   0xfffa3942, 0x8771f681, 0x6d9d6122, 0xfde5380c,
   0xa4beea44, 0x4bdecfa9, 0xf6bb4b60, 0xbebfbc70,
   0x289b7ec6, 0xeaa127fa, 0xd4ef3085, 0x04881d05,
   0xd9d4d039, 0xe6db99e5, 0x1fa27cf8, 0xc4ac5665,
   0xf4292244, 0x432aff97, 0xab9423a7, 0xfc93a039,
   0x655b59c3, 0x8f0ccc92, 0xffeff47d, 0x85845dd1,
   0x6fa87e4f, 0xfe2ce6e0, 0xa3014314, 0x4e0811a1,
   0xf7537e82, 0xbd3af235, 0x2ad7d2bb, 0xeb86d391]

/-- Bitwise complement within 32 bits. -/
def not32 (x : Nat) : Nat := (2 ^ 32 - 1) ^^^ x

/-- Left rotation of a 32-bit word. -/
def rotl32 (x n : Nat) : Nat := ((x <<< n) % 2 ^ 32) ||| (x >>> (32 - n))

/-- Little-endian byte decomposition, `k` bytes of `n`. -/
def toLE : Nat → Nat → List Nat
  | 0, _ => []
  | k + 1, n => n % 256 :: toLE k (n / 256)

/-- Read a little-endian byte list as a number. -/
def fromLE (bs : List Nat) : Nat := bs.foldr (fun b acc => b + 256 * acc) 0

/-- MD5 padding: append 0x80, zero-fill to 56 mod 64, then the original
bit length as 8 little-endian bytes. -/
def md5Pad (msg : List Nat) : List Nat :=
  let len := msg.length
  let zeros := (120 - (len + 1) % 64) % 64
  msg ++ [0x80] ++ List.replicate zeros 0 ++ toLE 8 (len * 8)

/-- One MD5 compression round applied to the register quadruple. -/
def md5Round (M : Nat → Nat) (st : Nat × Nat × Nat × Nat) (i : Nat) :
    Nat × Nat × Nat × Nat :=
  let a := st.1
  let b := st.2.1
  let c := st.2.2.1
  let d := st.2.2.2
  let f :=
    if i < 16 then (b &&& c) ||| (not32 b &&& d)
    else if i < 32 then (d &&& b) ||| (not32 d &&& c)
    else if i < 48 then b ^^^ c ^^^ d
    else c ^^^ (b ||| not32 d)
  let g :=
    if i < 16 then i
    else if i < 32 then (5 * i + 1) % 16
    else if i < 48 then (3 * i + 5) % 16
    else (7 * i) % 16
  let f2 := (f + a + mdK.getD i 0 + M g) % 2 ^ 32
  (d, (b + rotl32 f2 (mdS.getD i 0)) % 2 ^ 32, b, c)

/-- Process the 64-byte block at index `j` of the padded message. -/
def md5Block (padded : List Nat) (j : Nat) (st : Nat × Nat × Nat × Nat) :
    Nat × Nat × Nat × Nat :=
  let blk := (padded.drop (64 * j)).take 64
  let M := fun g => fromLE ((blk.drop (4 * g)).take 4)
  let r := (List.range 64).foldl (md5Round M) st
  ((st.1 + r.1) % 2 ^ 32, (st.2.1 + r.2.1) % 2 ^ 32,
   (st.2.2.1 + r.2.2.1) % 2 ^ 32, (st.2.2.2 + r.2.2.2) % 2 ^ 32)

/-- Final MD5 register state for a byte-list message. -/
def md5State (msg : List Nat) : Nat × Nat × Nat × Nat :=
  let padded := md5Pad msg
  (List.range (padded.length / 64)).foldl (fun st j => md5Block padded j st)
    (0x67452301, 0xefcdab89, 0x98badcfe, 0x10325476)

/-- First byte of the MD5 digest (`digest()[0]`), the low byte of the
final `a` register. -/
def md5FirstByte (msg : List Nat) : Nat := (md5State msg).1 % 256

/-- Embedding of the ingest route's partition assignment:
`md5(buffer).digest()[0] % 8`, a function of the image bytes alone. -/
def ingestPartition (buffer : List Nat) : Nat := md5FirstByte buffer % 8

example : md5FirstByte [] = 0xd4 := by decide
example : md5FirstByte [0] = 0x93 := by decide
example : md5FirstByte (codes "a") = 0x0c := by decide

example : getPartition 4 (codes "k1") = 2 := by decide
example : getPartition 8 (codes "a") = 1 := by decide
example : getPartition 8 (codes "") = 0 := by decide
example : getPartition 8 (codes "image_001.jpg") = 0 := by decide

/-! ### Supporting lemmas: the hash stays in signed 32-bit range -/

theorem toInt32_bounds (n : Int) : -(2 ^ 31) ≤ toInt32 n ∧ toInt32 n < 2 ^ 31 := by
  unfold toInt32
  have h1 : 0 ≤ (n + 2 ^ 31) % 2 ^ 32 := Int.emod_nonneg _ (by norm_num)
  have h2 : (n + 2 ^ 31) % 2 ^ 32 < 2 ^ 32 := Int.emod_lt_of_pos _ (by norm_num)
  constructor <;> omega

theorem hashOf_bounds (key : List Nat) :
    -(2 ^ 31) ≤ hashOf key ∧ hashOf key < 2 ^ 31 := by
  have step : ∀ (l : List Nat) (init : Int),
      -(2 ^ 31) ≤ init → init < 2 ^ 31 →
      -(2 ^ 31) ≤ l.foldl hashStep init ∧ l.foldl hashStep init < 2 ^ 31 := by
    intro l
    induction l with
    | nil => intro init h1 h2; exact ⟨h1, h2⟩
    | cons c rest ih =>
      intro init h1 h2
      simpa using ih (hashStep init c) (toInt32_bounds _).1 (toInt32_bounds _).2
  exact step key 0 (by norm_num) (by norm_num)

/-! ### Supporting lemmas: the shard store -/

/-- Lookup of a partition by id, the embedding of `partitions.get(pid)`. -/
def findPartition {α : Type} (ps : List (Partition α)) (pid : Nat) :
    Option (Partition α) :=
  ps.find? (fun p => p.id = pid)

theorem retrieve_eq_findPartition {α : Type} (s : DistributedStorage α) (key : List Nat) :
    s.retrieve key =
      match findPartition s.partitions (getPartition s.partitionCount key) with
      | none => none
      | some p => (mapGet p.data key).map (fun it => it.data) := rfl

theorem mapGet_mapSet_self {α : Type} (m : List (List Nat × StoredItem α))
    (k : List Nat) (v : StoredItem α) : mapGet (mapSet m k v) k = some v := by
  induction m with
  | nil => simp [mapSet, mapGet]
  | cons hd rest ih =>
    obtain ⟨k2, v2⟩ := hd
    by_cases h : k2 = k
    · simp [mapSet, mapGet, h]
    · simp [mapSet, mapGet, h, ih]

theorem findPartition_id {α : Type} (ps : List (Partition α)) (pid : Nat)
    (q : Partition α) (h : findPartition ps pid = some q) : q.id = pid := by
  have := List.find?_some h
  simpa using this

theorem findPartition_update {α : Type} (ps : List (Partition α)) (i pid : Nat)
    (f : Partition α → Partition α) (hf : ∀ p, (f p).id = p.id) :
    findPartition (updatePartition ps i f) pid
      = (findPartition ps pid).map (fun p => if p.id = i then f p else p) := by
  induction ps with
  | nil => simp [findPartition, updatePartition]
  | cons p rest ih =>
    have hid : (if p.id = i then f p else p).id = p.id := by
      by_cases h : p.id = i <;> simp [h, hf]
    simp only [findPartition, updatePartition, List.map_cons, List.find?_cons]
    by_cases hp : p.id = pid
    · rw [show decide ((if p.id = i then f p else p).id = pid) = true by rw [hid]; simp [hp],
          show decide (p.id = pid) = true by simp [hp]]
      simp
    · rw [show decide ((if p.id = i then f p else p).id = pid) = false by rw [hid]; simp [hp],
          show decide (p.id = pid) = false by simp [hp]]
      simpa only [findPartition, updatePartition] using ih

/-- Well-formed storage: the partition ids are exactly `0 .. P-1`,
as established by the constructor. -/
def wf {α : Type} (s : DistributedStorage α) : Prop :=
  s.partitions.map Partition.id = List.range s.partitionCount

theorem wf_init (α : Type) (P R : Nat) : wf (DistributedStorage.init α P R) := by
  simp only [wf, DistributedStorage.init, List.map_map]
  exact List.map_id _

theorem map_id_updatePartition {α : Type} (ps : List (Partition α)) (i : Nat)
    (f : Partition α → Partition α) (hf : ∀ p, (f p).id = p.id) :
    (updatePartition ps i f).map Partition.id = ps.map Partition.id := by
  induction ps with
  | nil => rfl
  | cons p rest ih =>
    have hhead : (if p.id = i then f p else p).id = p.id := by
      by_cases h : p.id = i <;> simp [h, hf]
    simp only [updatePartition, List.map_cons] at ih ⊢
    rw [hhead, ih]

theorem map_id_foldl {α β : Type} (js : List β)
    (G : List (Partition α) → β → List (Partition α))
    (hG : ∀ ps b, (G ps b).map Partition.id = ps.map Partition.id)
    (ps : List (Partition α)) :
    (js.foldl G ps).map Partition.id = ps.map Partition.id := by
  induction js generalizing ps with
  | nil => rfl
  | cons b rest ih => rw [List.foldl_cons, ih, hG]

theorem store_partitionCount {α : Type} (s : DistributedStorage α) (sz : α → Nat)
    (now : Nat) (key : List Nat) (v : α) :
    (s.store sz now key v).partitionCount = s.partitionCount := rfl

theorem store_map_id {α : Type} (s : DistributedStorage α) (sz : α → Nat)
    (now : Nat) (key : List Nat) (v : α) :
    (s.store sz now key v).partitions.map Partition.id
      = s.partitions.map Partition.id := by
  simp only [DistributedStorage.store]
  rw [map_id_foldl]
  · exact map_id_updatePartition _ _ _ (fun p => rfl)
  · intro ps j
    exact map_id_updatePartition _ _ _ (fun p => rfl)

theorem wf_store {α : Type} (s : DistributedStorage α) (hs : wf s) (sz : α → Nat)
    (now : Nat) (key : List Nat) (v : α) : wf (s.store sz now key v) := by
  unfold wf
  rw [store_map_id, store_partitionCount]
  exact hs

theorem findPartition_init (α : Type) (P R pid : Nat) (hpid : pid < P) :
    findPartition (DistributedStorage.init α P R).partitions pid
      = some { id := pid, data := [], size := 0, itemCount := 0 } := by
  show findPartition ((List.range P).map
    (fun i => ({ id := i, data := [], size := 0, itemCount := 0 } : Partition α))) pid = _
  induction P with
  | zero => omega
  | succ m ih =>
    rw [List.range_succ, List.map_append]
    unfold findPartition at ih ⊢
    rw [List.find?_append]
    by_cases h : pid < m
    · rw [ih h]
      rfl
    · have hm : pid = m := by omega
      subst hm
      have hnone : ((List.range pid).map
          (fun i => ({ id := i, data := [], size := 0, itemCount := 0 } : Partition α))).find?
            (fun p => p.id = pid) = none := by
        rw [List.find?_eq_none]
        intro q hq
        simp only [List.mem_map, List.mem_range] at hq
        obtain ⟨i, hi, rfl⟩ := hq
        simp
        omega
      rw [hnone]
      simp [List.find?_cons]

theorem findPartition_exists {α : Type} (s : DistributedStorage α) (hwf : wf s)
    (pid : Nat) (hpid : pid < s.partitionCount) :
    ∃ q, findPartition s.partitions pid = some q ∧ q.id = pid := by
  have hmem : pid ∈ s.partitions.map Partition.id := by
    rw [hwf]; exact List.mem_range.mpr hpid
  obtain ⟨q, hq, hqid⟩ := List.mem_map.mp hmem
  have hsome : (s.partitions.find? (fun p => p.id = pid)).isSome := by
    rw [List.find?_isSome]
    exact ⟨q, hq, by simp [hqid]⟩
  obtain ⟨q2, hq2⟩ := Option.isSome_iff_exists.mp hsome
  exact ⟨q2, hq2, findPartition_id _ _ _ hq2⟩

/-- The primary-read invariant: the partition with id `pid` exists and its
map sends `key` to an item whose payload is `v`. -/
def primHolds {α : Type} (key : List Nat) (v : α) (ps : List (Partition α))
    (pid : Nat) : Prop :=
  match findPartition ps pid with
  | none => False
  | some p => (mapGet p.data key).map StoredItem.data = some v

theorem primHolds_update {α : Type} (key : List Nat) (v : α)
    (ps : List (Partition α)) (pid i : Nat) (f : Partition α → Partition α)
    (hid : ∀ p, (f p).id = p.id)
    (hget : ∀ p, (mapGet (f p).data key).map StoredItem.data = some v)
    (h : primHolds key v ps pid) :
    primHolds key v (updatePartition ps i f) pid := by
  unfold primHolds at h ⊢
  rw [findPartition_update _ _ _ _ hid]
  cases hfp : findPartition ps pid with
  | none => rw [hfp] at h; exact h
  | some q =>
    rw [hfp] at h
    by_cases hqi : q.id = i
    · simpa [hqi] using hget q
    · simpa [hqi] using h

theorem primHolds_foldl {α β : Type} (key : List Nat) (v : α) (pid : Nat)
    (js : List β) (G : List (Partition α) → β → List (Partition α))
    (hG : ∀ acc b, primHolds key v acc pid → primHolds key v (G acc b) pid)
    (ps : List (Partition α)) (h : primHolds key v ps pid) :
    primHolds key v (js.foldl G ps) pid := by
  induction js generalizing ps with
  | nil => exact h
  | cons b rest ih => exact ih _ (hG _ _ h)

theorem retrieve_store {α : Type} (s : DistributedStorage α) (hwf : wf s)
    (hP : 0 < s.partitionCount) (sz : α → Nat) (now : Nat) (key : List Nat)
    (v : α) : (s.store sz now key v).retrieve key = some v := by
  have hpid : getPartition s.partitionCount key < s.partitionCount :=
    Nat.mod_lt _ hP
  obtain ⟨q, hq, hqid⟩ := findPartition_exists s hwf _ hpid
  have h2 : primHolds key v (s.store sz now key v).partitions
      (getPartition s.partitionCount key) := by
    simp only [DistributedStorage.store]
    apply primHolds_foldl
    · intro acc j h
      refine primHolds_update _ _ _ _ _ _ ?_ ?_ h
      · intro p2
        rfl
      · intro p2
        simp [mapGet_mapSet_self]
    · unfold primHolds
      rw [findPartition_update, hq]
      · simp [hqid, mapGet_mapSet_self]
      · intro p2
        rfl
  rw [retrieve_eq_findPartition, store_partitionCount]
  unfold primHolds at h2
  cases hfp : findPartition (s.store sz now key v).partitions
      (getPartition s.partitionCount key) with
  | none => rw [hfp] at h2; exact h2.elim
  | some p => rw [hfp] at h2; simpa using h2

/-! ### Supporting lemmas: partition counters -/

/-- The `itemCount` reported for partition `p` by the store `s`. -/
def itemCountOf {α : Type} (s : DistributedStorage α) (p : Nat) : Option Nat :=
  (findPartition s.partitions p).map Partition.itemCount

/-- The `size` reported for partition `p` by the store `s`. -/
def byteSizeOf {α : Type} (s : DistributedStorage α) (p : Nat) : Option Nat :=
  (findPartition s.partitions p).map Partition.size

theorem itemCount_foldl {α β : Type} (pid : Nat) (js : List β)
    (G : List (Partition α) → β → List (Partition α))
    (hG : ∀ acc b, (findPartition (G acc b) pid).map Partition.itemCount
        = (findPartition acc pid).map Partition.itemCount)
    (ps : List (Partition α)) :
    (findPartition (js.foldl G ps) pid).map Partition.itemCount
      = (findPartition ps pid).map Partition.itemCount := by
  induction js generalizing ps with
  | nil => rfl
  | cons b rest ih => rw [List.foldl_cons, ih, hG]

theorem size_foldl {α β : Type} (pid : Nat) (js : List β)
    (G : List (Partition α) → β → List (Partition α))
    (hG : ∀ acc b, (findPartition (G acc b) pid).map Partition.size
        = (findPartition acc pid).map Partition.size)
    (ps : List (Partition α)) :
    (findPartition (js.foldl G ps) pid).map Partition.size
      = (findPartition ps pid).map Partition.size := by
  induction js generalizing ps with
  | nil => rfl
  | cons b rest ih => rw [List.foldl_cons, ih, hG]

theorem counters_store {α : Type} (s : DistributedStorage α) (sz : α → Nat)
    (now : Nat) (key : List Nat) (v : α) (p : Nat) :
    itemCountOf (s.store sz now key v) p
        = (itemCountOf s p).map
            (fun c => if getPartition s.partitionCount key = p then c + 1 else c)
    ∧ byteSizeOf (s.store sz now key v) p
        = (byteSizeOf s p).map
            (fun c => if getPartition s.partitionCount key = p then c + sz v else c) := by
  simp only [itemCountOf, byteSizeOf, DistributedStorage.store]
  constructor
  · rw [itemCount_foldl]
    · rw [findPartition_update]
      · cases hfp : findPartition s.partitions p with
        | none => simp
        | some q =>
          have hqid : q.id = p := findPartition_id _ _ _ hfp
          by_cases hpp : getPartition s.partitionCount key = p
          · simp [hqid, hpp]
          · simp [hqid, hpp, Ne.symm hpp]
      · intro q
        rfl
    · intro acc j
      rw [findPartition_update]
      · cases hfp : findPartition acc p with
        | none => simp
        | some q =>
          by_cases hqi : q.id = (getPartition s.partitionCount key + (j + 1)) % s.partitionCount <;>
            simp [hqi]
      · intro q
        rfl
  · rw [size_foldl]
    · rw [findPartition_update]
      · cases hfp : findPartition s.partitions p with
        | none => simp
        | some q =>
          have hqid : q.id = p := findPartition_id _ _ _ hfp
          by_cases hpp : getPartition s.partitionCount key = p
          · simp [hqid, hpp]
          · simp [hqid, hpp, Ne.symm hpp]
      · intro q
        rfl
    · intro acc j
      rw [findPartition_update]
      · cases hfp : findPartition acc p with
        | none => simp
        | some q =>
          by_cases hqi : q.id = (getPartition s.partitionCount key + (j + 1)) % s.partitionCount <;>
            simp [hqi]
      · intro q
        rfl

theorem counters_storeAll {α : Type} (s : DistributedStorage α) (sz : α → Nat)
    (ops : List (Nat × List Nat × α)) (p : Nat) :
    itemCountOf (storeAll s sz ops) p
      = (itemCountOf s p).map
          (fun c => c + ops.countP (fun op => getPartition s.partitionCount op.2.1 = p))
    ∧ byteSizeOf (storeAll s sz ops) p
      = (byteSizeOf s p).map
          (fun c => c + ((ops.filter
              (fun op => getPartition s.partitionCount op.2.1 = p)).map
                (fun op => sz op.2.2)).sum) := by
  induction ops generalizing s with
  | nil =>
    constructor
    · cases h : itemCountOf s p <;> simp [storeAll, h]
    · cases h : byteSizeOf s p <;> simp [storeAll, h]
  | cons op rest ih =>
    have hs2 : (s.store sz op.1 op.2.1 op.2.2).partitionCount = s.partitionCount :=
      store_partitionCount s sz op.1 op.2.1 op.2.2
    have hrec := ih (s.store sz op.1 op.2.1 op.2.2)
    rw [hs2] at hrec
    have hstep := counters_store s sz op.1 op.2.1 op.2.2 p
    have hfold : storeAll s sz (op :: rest)
        = storeAll (s.store sz op.1 op.2.1 op.2.2) sz rest := by
      simp [storeAll]
    rw [hfold]
    constructor
    · rw [hrec.1, hstep.1, Option.map_map]
      cases hic : itemCountOf s p with
      | none => rfl
      | some c =>
        simp only [Option.map_some', Function.comp_apply]
        congr 1
        rw [List.countP_cons]
        by_cases hop : getPartition s.partitionCount op.2.1 = p <;> simp [hop] <;> omega
    · rw [hrec.2, hstep.2, Option.map_map]
      cases hic : byteSizeOf s p with
      | none => rfl
      | some c =>
        simp only [Option.map_some', Function.comp_apply]
        congr 1
        rw [List.filter_cons]
        by_cases hop : getPartition s.partitionCount op.2.1 = p <;> simp [hop] <;> omega

theorem itemCountOf_init (α : Type) (P R p : Nat) (hp : p < P) :
    itemCountOf (DistributedStorage.init α P R) p = some 0 := by
  unfold itemCountOf
  rw [findPartition_init α P R p hp]
  rfl

theorem byteSizeOf_init (α : Type) (P R p : Nat) (hp : p < P) :
    byteSizeOf (DistributedStorage.init α P R) p = some 0 := by
  unfold byteSizeOf
  rw [findPartition_init α P R p hp]
  rfl

/-! ### Claims about the partitioner and the shard store -/

/-- Claim C2: for every key the partitioner returns an integer in `[0, P)`,
computed deterministically as the signed-32-bit recurrence
`h = toInt32 (toInt32 (h * 32) - h + c)` folded over the key's character
codes followed by absolute value modulo `P`; the intermediate hash always
lies in the signed 32-bit range, the empty key yields partition 0, and two
calls with the same key return the same partition. -/
theorem c2_partitioner_range_deterministic (P : Nat) (hP : 0 < P) (key : List Nat) :
    getPartition P key < P
    ∧ getPartition P key = (key.foldl hashStep 0).natAbs % P
    ∧ (-(2 ^ 31) ≤ hashOf key ∧ hashOf key < 2 ^ 31)
    ∧ getPartition P [] = 0
    ∧ (∀ key2, key2 = key → getPartition P key2 = getPartition P key) := by
  refine ⟨Nat.mod_lt _ hP, rfl, hashOf_bounds key, ?_, ?_⟩
  · simp [getPartition, hashOf]
  · intro key2 h
    rw [h]

/-- Witness for C2 at `P = 8` and the key `image_001.jpg`. -/
theorem c2_partitioner_range_deterministic_witness :
    getPartition 8 (codes "image_001.jpg") < 8
    ∧ getPartition 8 (codes "image_001.jpg")
        = ((codes "image_001.jpg").foldl hashStep 0).natAbs % 8
    ∧ (-(2 ^ 31) ≤ hashOf (codes "image_001.jpg")
        ∧ hashOf (codes "image_001.jpg") < 2 ^ 31)
    ∧ getPartition 8 [] = 0
    ∧ (∀ key2, key2 = codes "image_001.jpg" →
        getPartition 8 key2 = getPartition 8 (codes "image_001.jpg")) :=
  c2_partitioner_range_deterministic 8 (by decide) (codes "image_001.jpg")

/-- Claim C3 counterexample: with `P = 4`, `R = 2`, after storing under key
`k1` on an empty store, the replica partition `(partition(k1)+1) % 4 = 3`
reports `itemCount = 0`, not `1` as the claim states: the replica write
does not touch the counters. -/
theorem c3_replica_itemCount_counterexample :
    ¬ ((((DistributedStorage.init Nat 4 2).store (fun _ => 7) 0 (codes "k1") 1).getStats.partitions.get?
          ((getPartition 4 (codes "k1") + 1) % 4)).map PartitionStat.itemCount = some 1) := by
  decide

/-- Claim C3 amended: with `P = 4`, `R = 2`, after `store("k1", v)` on an
empty store, `retrieve("k1")` returns `v`; exactly `R = 2` partitions
(the primary `partition("k1") = 2` and the replica `3`) contain the key;
the primary partition reports `itemCount = 1` while the replica partition
reports `itemCount = 0`, because replica writes do not update counters. -/
theorem c3_store_roundtrip_amended :
    getPartition 4 (codes "k1") = 2
    ∧ ((DistributedStorage.init Nat 4 2).store (fun _ => 7) 0 (codes "k1") 1).retrieve
        (codes "k1") = some 1
    ∧ (((DistributedStorage.init Nat 4 2).store (fun _ => 7) 0 (codes "k1") 1).partitions.filter
        (fun q => q.hasKey (codes "k1"))).map Partition.id = [2, 3]
    ∧ ((((DistributedStorage.init Nat 4 2).store (fun _ => 7) 0 (codes "k1") 1).getStats.partitions.get?
        2).map PartitionStat.itemCount = some 1)
    ∧ ((((DistributedStorage.init Nat 4 2).store (fun _ => 7) 0 (codes "k1") 1).getStats.partitions.get?
        3).map PartitionStat.itemCount = some 0) := by
  decide

/-- Claim C8 counterexample: constructing the store with replication factor
5 greater than partition count 4 does not fail — the constructor performs
no validation — and the resulting store is usable: a store/retrieve
round-trip succeeds. -/
theorem c8_no_validation_counterexample :
    (DistributedStorage.init Nat 4 5).partitions.length = 4
    ∧ ((DistributedStorage.init Nat 4 5).store (fun _ => 7) 0 (codes "k1") 1).retrieve
        (codes "k1") = some 1 := by decide

/-- Claim C8 amended: constructing with `R > P` is not rejected; the
constructor performs no validation of the replication factor, and for any
`P > 0` and any `R` (including `R > P`) the resulting store is usable:
it has `P` partitions and a store/retrieve round-trip succeeds (replica
indices simply wrap modulo `P`). -/
theorem c8_amended_no_validation (α : Type) (P R : Nat) (hP : 0 < P)
    (sz : α → Nat) (now : Nat) (key : List Nat) (v : α) :
    (DistributedStorage.init α P R).partitions.length = P
    ∧ ((DistributedStorage.init α P R).store sz now key v).retrieve key = some v := by
  constructor
  · simp [DistributedStorage.init]
  · exact retrieve_store _ (wf_init α P R) hP sz now key v

/-- Witness for the amended C8 at `P = 4`, `R = 5`. -/
theorem c8_amended_no_validation_witness :
    (DistributedStorage.init Nat 4 5).partitions.length = 4
    ∧ ((DistributedStorage.init Nat 4 5).store (fun _ => 9) 3 (codes "k2") 2).retrieve
        (codes "k2") = some 2 :=
  c8_amended_no_validation Nat 4 5 (by decide) (fun _ => 9) 3 (codes "k2") 2

/-- Claim C9 counterexample: the bulk-ingest path's partition is a function
of the image bytes — `md5(buffer)[0] % 8` — not of the key, and it
disagrees with the in-process partitioner: an item with key `a` and empty
content gets ingest partition 4 while the in-process partitioner maps key
`a` to partition 1; moreover two contents under the same key get different
ingest partitions (4 and 3), so no identification of keys can make the two
paths agree. -/
theorem c9_ingest_partition_counterexample :
    ingestPartition [] = 4
    ∧ getPartition 8 (codes "a") = 1
    ∧ ingestPartition [] ≠ getPartition 8 (codes "a")
    ∧ ingestPartition [0] = 3 := by decide

/-- Claim C9 amended: each path computes a deterministic partition in
`[0, 8)`, but they are different pure functions of different inputs: the
bulk-ingest path hashes the image bytes with MD5 and takes the first digest
byte modulo 8, while the in-process partitioner hashes the key string; the
two assignments do not agree in general. -/
theorem c9_amended_two_partitioners (buffer key : List Nat) :
    ingestPartition buffer < 8
    ∧ getPartition 8 key < 8
    ∧ ingestPartition buffer = md5FirstByte buffer % 8 := by
  refine ⟨Nat.mod_lt _ (by decide), Nat.mod_lt _ (by decide), rfl⟩

/-- Claim C10: a partition's reported `itemCount` equals the number of
`store` calls whose primary partition it is (and `size` the sum of their
payload sizes): replica writes never change any partition's counters, and
re-storing an existing key overwrites its entry (retrieve returns the
newest value) while still incrementing the primary partition's count. -/
theorem c10_counters_count_primary_stores (α : Type) (P R : Nat) (hP : 0 < P)
    (sz : α → Nat) (ops : List (Nat × List Nat × α)) (p : Nat) (hp : p < P)
    (now1 now2 : Nat) (key : List Nat) (v1 v2 : α) :
    itemCountOf (storeAll (DistributedStorage.init α P R) sz ops) p
      = some (ops.countP (fun op => getPartition P op.2.1 = p))
    ∧ byteSizeOf (storeAll (DistributedStorage.init α P R) sz ops) p
      = some (((ops.filter (fun op => getPartition P op.2.1 = p)).map
          (fun op => sz op.2.2)).sum)
    ∧ (((DistributedStorage.init α P R).store sz now1 key v1).store sz now2 key v2).retrieve
        key = some v2
    ∧ itemCountOf (((DistributedStorage.init α P R).store sz now1 key v1).store
        sz now2 key v2) (getPartition P key) = some 2 := by
  have hall := counters_storeAll (DistributedStorage.init α P R) sz ops p
  have hkP : getPartition P key < P := Nat.mod_lt _ hP
  have hinitP : (DistributedStorage.init α P R).partitionCount = P := rfl
  refine ⟨?_, ?_, ?_, ?_⟩
  · rw [hall.1, itemCountOf_init α P R p hp]
    simp [hinitP]
  · rw [hall.2, byteSizeOf_init α P R p hp]
    simp [hinitP]
  · exact retrieve_store _ (wf_store _ (wf_init α P R) sz now1 key v1) hP sz now2 key v2
  · have h1 := (counters_store (DistributedStorage.init α P R) sz now1 key v1
      (getPartition P key)).1
    have h2 := (counters_store ((DistributedStorage.init α P R).store sz now1 key v1)
      sz now2 key v2 (getPartition P key)).1
    rw [store_partitionCount] at h2
    rw [h2, h1, itemCountOf_init α P R _ hkP]
    simp [hinitP]

/-- Witness for C10 at `P = 4`, `R = 2`, one store op, partition 2. -/
theorem c10_counters_count_primary_stores_witness :
    itemCountOf (storeAll (DistributedStorage.init Nat 4 2) (fun _ => 7)
        [(0, codes "k1", 1)]) 2
      = some ([(0, codes "k1", 1)].countP (fun op => getPartition 4 op.2.1 = 2))
    ∧ byteSizeOf (storeAll (DistributedStorage.init Nat 4 2) (fun _ => 7)
        [(0, codes "k1", 1)]) 2
      = some ((([(0, codes "k1", 1)].filter (fun op => getPartition 4 op.2.1 = 2)).map
          (fun op => (fun _ => 7) op.2.2)).sum)
    ∧ (((DistributedStorage.init Nat 4 2).store (fun _ => 7) 0 (codes "k2") 5).store
        (fun _ => 7) 1 (codes "k2") 9).retrieve (codes "k2") = some 9
    ∧ itemCountOf (((DistributedStorage.init Nat 4 2).store (fun _ => 7) 0 (codes "k2") 5).store
        (fun _ => 7) 1 (codes "k2") 9) (getPartition 4 (codes "k2")) = some 2 :=
  c10_counters_count_primary_stores Nat 4 2 (by decide) (fun _ => 7)
    [(0, codes "k1", 1)] 2 (by decide) 0 1 (codes "k2") 5 9

/-! ### Worker pool (WorkerPool class)

The worker table is a list of records with stable integer ids assigned
`0 .. n-1` at construction.  `getNextWorker` embeds the selection policy:
`find` the first non-busy worker, else `reduce` to the one with the
fewest processed tasks; both branches increment `processed` immediately
(assignment time).  `completeWorker` embeds the `finally` block of
`executeTask`, which only flips `busy` back to false. -/

/-- Embedding of the `Worker` record. -/
structure Worker where
  id : Nat
  busy : Bool
  processed : Nat
deriving DecidableEq

/-- Embedding of the pool constructor's worker table. -/
def mkWorkers (workerCount : Nat) : List Worker :=
  (List.range workerCount).map (fun i => { id := i, busy := false, processed := 0 })

/-- The in-place `processed++` on the chosen worker. -/
def incProcessed (w : Worker) : Worker := { w with processed := w.processed + 1 }

/-- The worker table after the chosen worker's `processed++`. -/
def bumpProcessed (ws : List Worker) (i : Nat) : List Worker :=
  ws.map (fun w => if w.id = i then incProcessed w else w)

/-- Embedding of the JS `reduce` fallback (no initial value: the head
seeds the accumulator; strict `<` keeps the earlier worker on ties). -/
def leastBusyWorker : List Worker → Option Worker
  | [] => none
  | w :: rest =>
    some (rest.foldl (fun min w2 => if w2.processed < min.processed then w2 else min) w)

/-- Embedding of `WorkerPool.getNextWorker`: the chosen (already
incremented) worker together with the updated worker table. -/
def getNextWorker (ws : List Worker) : Option (Worker × List Worker) :=
  match ws.find? (fun w => !w.busy) with
  | some w => some (incProcessed w, bumpProcessed ws w.id)
  | none => (leastBusyWorker ws).map (fun w => (incProcessed w, bumpProcessed ws w.id))

/-- Embedding of the completion path (`finally` of `executeTask`): only
`busy` is cleared; `processed` is untouched. -/
def completeWorker (ws : List Worker) (i : Nat) : List Worker :=
  ws.map (fun w => if w.id = i then { w with busy := false } else w)

theorem find?_idle_min (ws : List Worker)
    (hpw : ws.Pairwise (fun a b => a.id < b.id)) (w : Worker)
    (hf : ws.find? (fun w => !w.busy) = some w) :
    ∀ w2 ∈ ws, w2.busy = false → w.id ≤ w2.id := by
  induction ws with
  | nil => simp at hf
  | cons a rest ih =>
    rw [List.find?_cons] at hf
    cases ha : (!a.busy) with
    | true =>
      rw [ha] at hf
      injection hf with hf
      subst hf
      intro w2 hw2 hb
      rcases List.mem_cons.mp hw2 with h | h
      · subst h; exact le_refl _
      · exact Nat.le_of_lt ((List.pairwise_cons.mp hpw).1 w2 h)
    | false =>
      rw [ha] at hf
      intro w2 hw2 hb
      rcases List.mem_cons.mp hw2 with h | h
      · subst h
        simp [hb] at ha
      · exact ih (List.pairwise_cons.mp hpw).2 hf w2 h hb

theorem foldl_leastBusy (rest : List Worker) (acc : Worker) :
    (rest.foldl (fun min w2 => if w2.processed < min.processed then w2 else min) acc
        = acc
      ∨ rest.foldl (fun min w2 => if w2.processed < min.processed then w2 else min) acc
        ∈ rest)
    ∧ (rest.foldl (fun min w2 => if w2.processed < min.processed then w2 else min)
        acc).processed ≤ acc.processed
    ∧ ∀ w ∈ rest,
        (rest.foldl (fun min w2 => if w2.processed < min.processed then w2 else min)
          acc).processed ≤ w.processed := by
  induction rest generalizing acc with
  | nil => exact ⟨Or.inl rfl, le_refl _, by simp⟩
  | cons b bs ih =>
    rw [List.foldl_cons]
    obtain ⟨hmem, hacc, hall⟩ := ih (if b.processed < acc.processed then b else acc)
    have haccle : (if b.processed < acc.processed then b else acc).processed
        ≤ acc.processed := by
      by_cases hb : b.processed < acc.processed <;> simp [hb]
      omega
    have hble : (if b.processed < acc.processed then b else acc).processed
        ≤ b.processed := by
      by_cases hb : b.processed < acc.processed <;> simp [hb]
      omega
    refine ⟨?_, le_trans hacc haccle, ?_⟩
    · rcases hmem with h | h
      · rw [h]
        by_cases hb : b.processed < acc.processed
        · rw [if_pos hb]
          exact Or.inr (List.mem_cons_self b bs)
        · rw [if_neg hb]
          exact Or.inl rfl
      · exact Or.inr (List.mem_cons_of_mem b h)
    · intro w hw
      rcases List.mem_cons.mp hw with h | h
      · subst h
        exact le_trans hacc hble
      · exact hall w h

theorem completeWorker_processed (ws : List Worker) (i : Nat) :
    (completeWorker ws i).map Worker.processed = ws.map Worker.processed := by
  unfold completeWorker
  rw [List.map_map]
  apply List.map_congr_left
  intro w hw
  by_cases h : w.id = i <;> simp [h]

/-- Claim C6: the selection function returns the idle worker with the
lowest id whenever an idle worker exists; if all workers are busy it
returns one whose `processed` counter is minimal; in both branches the
chosen worker's `processed` counter is incremented at assignment time,
while the completion path leaves every `processed` counter unchanged. -/
theorem c6_worker_selection (ws : List Worker) (hne : ws ≠ [])
    (hids : ws.map Worker.id = List.range ws.length) :
    (∃ w0 ∈ ws,
      getNextWorker ws = some (incProcessed w0, bumpProcessed ws w0.id)
      ∧ ((∃ w ∈ ws, w.busy = false) →
          w0.busy = false ∧ ∀ w ∈ ws, w.busy = false → w0.id ≤ w.id)
      ∧ ((∀ w ∈ ws, w.busy = true) → ∀ w ∈ ws, w0.processed ≤ w.processed)
      ∧ (incProcessed w0).processed = w0.processed + 1)
    ∧ (∀ i, (completeWorker ws i).map Worker.processed = ws.map Worker.processed) := by
  have hpw : ws.Pairwise (fun a b => a.id < b.id) := by
    have h := List.pairwise_lt_range ws.length
    rw [← hids] at h
    exact (List.pairwise_map.mp h)
  refine ⟨?_, fun i => completeWorker_processed ws i⟩
  cases hf : ws.find? (fun w => !w.busy) with
  | some w =>
    have hwmem : w ∈ ws := List.mem_of_find?_eq_some hf
    have hwidle : w.busy = false := by
      have := List.find?_some hf
      simpa using this
    refine ⟨w, hwmem, ?_, ?_, ?_, rfl⟩
    · simp [getNextWorker, hf]
    · intro _
      exact ⟨hwidle, find?_idle_min ws hpw w hf⟩
    · intro hall
      exact absurd (hall w hwmem) (by simp [hwidle])
  | none =>
    have hall : ∀ w ∈ ws, w.busy = true := by
      intro w hw
      have := List.find?_eq_none.mp hf w hw
      simpa using this
    cases ws with
    | nil => exact absurd rfl hne
    | cons a rest =>
      obtain ⟨hmem, hacc, hrest⟩ := foldl_leastBusy rest a
      refine ⟨rest.foldl
          (fun min w2 => if w2.processed < min.processed then w2 else min) a, ?_, ?_, ?_, ?_, rfl⟩
      · rcases hmem with h | h
        · rw [h]; exact List.mem_cons_self a rest
        · exact List.mem_cons_of_mem a h
      · simp [getNextWorker, hf, leastBusyWorker]
      · intro hidle
        obtain ⟨w, hw, hwb⟩ := hidle
        exact absurd (hall w hw) (by simp [hwb])
      · intro _
        intro w hw
        rcases List.mem_cons.mp hw with h | h
        · subst h; exact hacc
        · exact hrest w h

/-- Witness for C6 on a three-worker table with worker 0 busy. -/
theorem c6_worker_selection_witness :
    (∃ w0 ∈ [({ id := 0, busy := true, processed := 5 } : Worker),
             { id := 1, busy := false, processed := 2 },
             { id := 2, busy := false, processed := 0 }],
      getNextWorker [({ id := 0, busy := true, processed := 5 } : Worker),
             { id := 1, busy := false, processed := 2 },
             { id := 2, busy := false, processed := 0 }]
          = some (incProcessed w0,
              bumpProcessed [({ id := 0, busy := true, processed := 5 } : Worker),
                { id := 1, busy := false, processed := 2 },
                { id := 2, busy := false, processed := 0 }] w0.id)
      ∧ ((∃ w ∈ [({ id := 0, busy := true, processed := 5 } : Worker),
             { id := 1, busy := false, processed := 2 },
             { id := 2, busy := false, processed := 0 }], w.busy = false) →
          w0.busy = false ∧ ∀ w ∈ [({ id := 0, busy := true, processed := 5 } : Worker),
             { id := 1, busy := false, processed := 2 },
             { id := 2, busy := false, processed := 0 }], w.busy = false → w0.id ≤ w.id)
      ∧ ((∀ w ∈ [({ id := 0, busy := true, processed := 5 } : Worker),
             { id := 1, busy := false, processed := 2 },
             { id := 2, busy := false, processed := 0 }], w.busy = true) →
          ∀ w ∈ [({ id := 0, busy := true, processed := 5 } : Worker),
             { id := 1, busy := false, processed := 2 },
             { id := 2, busy := false, processed := 0 }], w0.processed ≤ w.processed)
      ∧ (incProcessed w0).processed = w0.processed + 1)
    ∧ (∀ i, (completeWorker [({ id := 0, busy := true, processed := 5 } : Worker),
             { id := 1, busy := false, processed := 2 },
             { id := 2, busy := false, processed := 0 }] i).map Worker.processed
        = [({ id := 0, busy := true, processed := 5 } : Worker),
             { id := 1, busy := false, processed := 2 },
             { id := 2, busy := false, processed := 0 }].map Worker.processed) :=
  c6_worker_selection
    [{ id := 0, busy := true, processed := 5 },
     { id := 1, busy := false, processed := 2 },
     { id := 2, busy := false, processed := 0 }]
    (by decide) (by decide)

/-! ### Coordinator concurrency bound

`PoolState` abstracts the pool's mutable counters: the task queue length
and `activeProcessing`.  The three steps embed the only code paths that
change them: `processImage` pushes a task (`submit`); the coordinator pops
a task and calls `executeTask`, but only after its wait loop has observed
`activeProcessing < concurrentLimit`, and `executeTask` increments
`activeProcessing` synchronously before the coordinator's next iteration
(`dispatch`); a worker's `finally` block decrements it (`complete`). -/

structure PoolState where
  queued : Nat
  active : Nat
deriving DecidableEq

inductive PoolStep (limit : Nat) : PoolState → PoolState → Prop
  | submit (q a : Nat) : PoolStep limit ⟨q, a⟩ ⟨q + 1, a⟩
  | dispatch (q a : Nat) (h : a < limit) : PoolStep limit ⟨q + 1, a⟩ ⟨q, a + 1⟩
  | complete (q a : Nat) : PoolStep limit ⟨q, a + 1⟩ ⟨q, a⟩

/-- Claim C4: in every execution of the pool (any interleaving of
submissions, dispatches and completions from the initial idle state), the
in-flight count `activeProcessing` never exceeds `concurrentLimit`:
dispatch is guarded by `activeProcessing < concurrentLimit` and increments
the counter by exactly one before the next dispatch decision. -/
theorem c4_inflight_bounded (limit : Nat) (s : PoolState)
    (h : Relation.ReflTransGen (PoolStep limit) ⟨0, 0⟩ s) : s.active ≤ limit := by
  induction h with
  | refl => exact Nat.zero_le _
  | tail hab hbc ih =>
    cases hbc with
    | submit q a => exact ih
    | dispatch q a hlt => exact hlt
    | complete q a => exact Nat.le_of_succ_le ih

/-- Witness for C4: after one submit and one dispatch with four workers,
one task is in flight, within the bound. -/
theorem c4_inflight_bounded_witness : (⟨0, 1⟩ : PoolState).active ≤ 4 :=
  c4_inflight_bounded 4 ⟨0, 1⟩
    (Relation.ReflTransGen.tail
      (Relation.ReflTransGen.tail Relation.ReflTransGen.refl (PoolStep.submit 0 0))
      (PoolStep.dispatch 0 0 (by decide)))

/-! ### Streaming dispatcher (process route)

The request handler keeps a `stats` record with counters
`total, completed, pending, processing, errors` and emits line-delimited
events.  Tasks are identified by their submission index (the route aligns
`imageIds[i]` with `images[i]`; ids are taken distinct).  Three code paths
mutate the counters and emit `result`/`stats` events:

* the assignment callback (`pending--, processing++`, emit a `processing`
  result then the stats snapshot);
* the completion continuation (`processing--, completed++`, emit a
  `completed` result then the stats snapshot);
* the rejection continuation (`processing--` when positive else
  `pending--`, `errors++`, emit an `error` result then the stats snapshot).

`DStep` is one such mutation-plus-emission; a run of the handler is any
interleaving of steps, which over-approximates the event-loop schedules.
Counters are `Int` as in JavaScript (decrements are not clamped). -/

/-- Status carried by a `result` event. -/
inductive RKind
  | processing
  | completed
  | error
deriving DecidableEq

/-- The dispatcher's running counters. -/
structure Stats where
  total : Int
  completed : Int
  pending : Int
  processing : Int
  errors : Int
deriving DecidableEq

/-- The events relevant to the claims: per-task `result` events and
emissions of `stats` snapshots. -/
inductive DEvent
  | result (task : Nat) (kind : RKind)
  | statsEmit (st : Stats)
deriving DecidableEq

/-- Lifecycle phase of one task. -/
inductive TStatus
  | queued
  | processing
  | done
deriving DecidableEq

/-- Dispatcher state: per-task phases, the counters, and the emitted
event log in emission order. -/
structure DispState where
  phases : List TStatus
  stats : Stats
  events : List DEvent
deriving DecidableEq

/-- The initial counters for a batch of `n` images. -/
def initStats (n : Nat) : Stats :=
  { total := n, completed := 0, pending := n, processing := 0, errors := 0 }

/-- The dispatcher state right after the initial `stats` emission. -/
def initDisp (n : Nat) : DispState :=
  { phases := List.replicate n TStatus.queued
    stats := initStats n
    events := [DEvent.statsEmit (initStats n)] }

/-- Counter update of the assignment callback: `pending--, processing++`. -/
def assignStats (st : Stats) : Stats :=
  { st with pending := st.pending - 1, processing := st.processing + 1 }

/-- Counter update of the completion continuation:
`processing--, completed++`. -/
def okStats (st : Stats) : Stats :=
  { st with processing := st.processing - 1, completed := st.completed + 1 }

/-- Counter update of the rejection continuation: decrement `processing`
if positive else `pending`, then `errors++`. -/
def errStats (st : Stats) : Stats :=
  if st.processing > 0 then
    { st with processing := st.processing - 1, errors := st.errors + 1 }
  else
    { st with pending := st.pending - 1, errors := st.errors + 1 }

/-- One dispatcher step: an assignment, a successful completion, or a
failed completion of some task `i`, with the counter updates and event
emissions the route performs on that path. -/
inductive DStep : DispState → DispState → Prop
  | assign (s : DispState) (i : Nat) (h : s.phases.get? i = some TStatus.queued) :
      DStep s
        { phases := s.phases.set i TStatus.processing
          stats := assignStats s.stats
          events := s.events ++ [DEvent.result i RKind.processing,
            DEvent.statsEmit (assignStats s.stats)] }
  | completeOk (s : DispState) (i : Nat)
      (h : s.phases.get? i = some TStatus.processing) :
      DStep s
        { phases := s.phases.set i TStatus.done
          stats := okStats s.stats
          events := s.events ++ [DEvent.result i RKind.completed,
            DEvent.statsEmit (okStats s.stats)] }
  | completeErr (s : DispState) (i : Nat)
      (h : s.phases.get? i = some TStatus.processing) :
      DStep s
        { phases := s.phases.set i TStatus.done
          stats := errStats s.stats
          events := s.events ++ [DEvent.result i RKind.error,
            DEvent.statsEmit (errStats s.stats)] }

/-- The subsequence of `result` kinds emitted for task `i`. -/
def taskEvents (evs : List DEvent) (i : Nat) : List RKind :=
  evs.filterMap (fun e =>
    match e with
    | DEvent.result j k => if j = i then some k else none
    | DEvent.statsEmit _ => none)

/-- Whether a `result` status is terminal (`completed` or `error`). -/
def isTerminal : RKind → Bool
  | RKind.processing => false
  | RKind.completed => true
  | RKind.error => true

/-! ### Result event payloads (process route and image processor)

`completedResult` embeds the JSON object written on the success path
(`status: completed` with `description`, `partition`, `workerThread`,
`processingTime`); `errorResult` embeds the one written on the failure
path (`status: error` with `error` and `processingTime` only — the object
has no partition or worker field).  `describeResult` embeds the image
processor's `response.data.response || "No description available"`. -/

/-- Fields of a `result` event; absent JSON fields are `none`. -/
structure ResultEvent where
  id : String
  status : RKind
  description : Option String
  partition : Option Nat
  workerThread : Option Nat
  processingTime : Option Nat
  error : Option String
deriving DecidableEq

/-- The `result` event written by the completed branch. -/
def completedResult (id : String) (description : String)
    (partition workerThread processingTime : Nat) : ResultEvent :=
  { id := id
    status := RKind.completed
    description := some description
    partition := some partition
    workerThread := some workerThread
    processingTime := some processingTime
    error := none }

/-- The `result` event written by the error branch. -/
def errorResult (id : String) (message : String) (processingTime : Nat) :
    ResultEvent :=
  { id := id
    status := RKind.error
    description := none
    partition := none
    workerThread := none
    processingTime := some processingTime
    error := some message }

/-- The description produced by a successful describe call: the model's
response text, or the fallback when the response field is empty or
missing. -/
def describeResult (resp : Option String) : String :=
  match resp with
  | none => "No description available"
  | some s => if s = "" then "No description available" else s

/-! ### Claim C1: the stats-sum invariant -/

/-- The counters add up to the batch total. -/
def statsOk (st : Stats) : Prop :=
  st.pending + st.processing + st.completed + st.errors = st.total

/-- Invariant: the live counters and every emitted snapshot satisfy
`statsOk`. -/
def statsInv (s : DispState) : Prop :=
  statsOk s.stats ∧ ∀ st, DEvent.statsEmit st ∈ s.events → statsOk st

theorem statsOk_initStats (n : Nat) : statsOk (initStats n) := by
  simp [statsOk, initStats]

theorem statsOk_assignStats (st : Stats) (h : statsOk st) :
    statsOk (assignStats st) := by
  simp only [statsOk, assignStats] at h ⊢
  omega

theorem statsOk_okStats (st : Stats) (h : statsOk st) : statsOk (okStats st) := by
  simp only [statsOk, okStats] at h ⊢
  omega

theorem statsOk_errStats (st : Stats) (h : statsOk st) : statsOk (errStats st) := by
  simp only [statsOk] at h
  unfold statsOk errStats
  by_cases hp : st.processing > 0 <;> simp [hp] <;> omega

theorem statsInv_init (n : Nat) : statsInv (initDisp n) := by
  refine ⟨statsOk_initStats n, ?_⟩
  intro st hmem
  simp only [initDisp, List.mem_singleton] at hmem
  injection hmem with h
  rw [h]
  exact statsOk_initStats n

theorem statsInv_step (s s2 : DispState) (hinv : statsInv s) (hs : DStep s s2) :
    statsInv s2 := by
  cases hs with
  | assign i h0 =>
    refine ⟨statsOk_assignStats _ hinv.1, ?_⟩
    intro st hmem
    rw [List.mem_append] at hmem
    rcases hmem with h | h
    · exact hinv.2 st h
    · simp only [List.mem_cons, List.mem_singleton, List.not_mem_nil, or_false] at h
      rcases h with h | h
      · exact absurd h (by simp)
      · injection h with h2
        rw [h2]
        exact statsOk_assignStats _ hinv.1
  | completeOk i h0 =>
    refine ⟨statsOk_okStats _ hinv.1, ?_⟩
    intro st hmem
    rw [List.mem_append] at hmem
    rcases hmem with h | h
    · exact hinv.2 st h
    · simp only [List.mem_cons, List.mem_singleton, List.not_mem_nil, or_false] at h
      rcases h with h | h
      · exact absurd h (by simp)
      · injection h with h2
        rw [h2]
        exact statsOk_okStats _ hinv.1
  | completeErr i h0 =>
    refine ⟨statsOk_errStats _ hinv.1, ?_⟩
    intro st hmem
    rw [List.mem_append] at hmem
    rcases hmem with h | h
    · exact hinv.2 st h
    · simp only [List.mem_cons, List.mem_singleton, List.not_mem_nil, or_false] at h
      rcases h with h | h
      · exact absurd h (by simp)
      · injection h with h2
        rw [h2]
        exact statsOk_errStats _ hinv.1

/-- Claim C1: for every batch of `n` images and every reachable point of
the dispatcher (initial emission, assignment-callback re-emissions, and
re-emissions after terminal outcomes), every emitted `stats` snapshot
satisfies `pending + processing + completed + errors = total`. -/
theorem c1_stats_sum_invariant (n : Nat) (s : DispState)
    (h : Relation.ReflTransGen DStep (initDisp n) s) :
    ∀ st, DEvent.statsEmit st ∈ s.events →
      st.pending + st.processing + st.completed + st.errors = st.total := by
  have hinv : statsInv s := by
    induction h with
    | refl => exact statsInv_init n
    | tail hab hbc ih => exact statsInv_step _ _ ih hbc
  exact hinv.2

/-- Witness for C1: the snapshot emitted by the assignment callback after
one assignment in a batch of one sums to the total. -/
theorem c1_stats_sum_invariant_witness :
    (assignStats (initStats 1)).pending + (assignStats (initStats 1)).processing
      + (assignStats (initStats 1)).completed + (assignStats (initStats 1)).errors
      = (assignStats (initStats 1)).total :=
  c1_stats_sum_invariant 1 _
    (Relation.ReflTransGen.single (DStep.assign (initDisp 1) 0 (by decide)))
    (assignStats (initStats 1)) (by decide)

/-! ### Claim C5: per-task result-event lifecycle -/

theorem get?_replicate {α : Type} (a : α) :
    ∀ (n i : Nat), i < n → (List.replicate n a).get? i = some a := by
  intro n
  induction n with
  | zero => intro i h; omega
  | succ m ih =>
    intro i h
    cases i with
    | zero => rfl
    | succ j => exact ih j (by omega)

theorem taskEvents_append (a b : List DEvent) (i : Nat) :
    taskEvents (a ++ b) i = taskEvents a i ++ taskEvents b i :=
  List.filterMap_append a b _

theorem taskEvents_pair (i : Nat) (k : RKind) (st : Stats) :
    taskEvents [DEvent.result i k, DEvent.statsEmit st] i = [k] := by
  simp [taskEvents]

theorem taskEvents_pair_ne (i j : Nat) (h : j ≠ i) (k : RKind) (st : Stats) :
    taskEvents [DEvent.result j k, DEvent.statsEmit st] i = [] := by
  simp [taskEvents, h]

/-- Invariant: the batch has `n` task slots, and each task's `result`
subsequence matches its phase — nothing while queued, exactly the
`processing` event while in flight, and `processing` followed by exactly
one terminal event once done. -/
def taskInv (n : Nat) (s : DispState) : Prop :=
  s.phases.length = n ∧ ∀ i, i < n →
    ((s.phases.get? i = some TStatus.queued ∧ taskEvents s.events i = [])
     ∨ (s.phases.get? i = some TStatus.processing
        ∧ taskEvents s.events i = [RKind.processing])
     ∨ (s.phases.get? i = some TStatus.done
        ∧ ∃ t, isTerminal t = true
          ∧ taskEvents s.events i = [RKind.processing, t]))

theorem taskInv_init (n : Nat) : taskInv n (initDisp n) := by
  refine ⟨by simp [initDisp], ?_⟩
  intro i hi
  left
  constructor
  · exact get?_replicate TStatus.queued n i hi
  · rfl

theorem taskInv_step (n : Nat) (s s2 : DispState) (hinv : taskInv n s)
    (hs : DStep s s2) : taskInv n s2 := by
  obtain ⟨hlen, hcases⟩ := hinv
  cases hs with
  | assign i0 h0 =>
    refine ⟨by simpa using hlen, ?_⟩
    intro i hi
    by_cases hii : i = i0
    · subst hii
      right; left
      have hset : (s.phases.set i TStatus.processing).get? i
          = some TStatus.processing := by
        rw [List.get?_set_eq, h0]
        rfl
      refine ⟨hset, ?_⟩
      have hpairs : taskEvents (s.events ++ [DEvent.result i RKind.processing,
          DEvent.statsEmit (assignStats s.stats)]) i
          = taskEvents s.events i ++ [RKind.processing] := by
        rw [taskEvents_append, taskEvents_pair]
      rcases hcases i hi with ⟨hq, he⟩ | ⟨hp, he⟩ | ⟨hd, t, ht, he⟩
      · exact hpairs.trans (by rw [he]; rfl)
      · rw [h0] at hp
        exact absurd hp (by simp)
      · rw [h0] at hd
        exact absurd hd (by simp)
    · have hg : (s.phases.set i0 TStatus.processing).get? i = s.phases.get? i :=
        List.get?_set_ne _ _ (fun hh => hii hh.symm)
      have hev : taskEvents (s.events ++ [DEvent.result i0 RKind.processing,
          DEvent.statsEmit (assignStats s.stats)]) i = taskEvents s.events i := by
        rw [taskEvents_append, taskEvents_pair_ne i i0 (fun hh => hii hh.symm)]
        simp
      rcases hcases i hi with ⟨hq, he⟩ | ⟨hp, he⟩ | ⟨hd, t, ht, he⟩
      · exact Or.inl ⟨hg.trans hq, hev.trans he⟩
      · exact Or.inr (Or.inl ⟨hg.trans hp, hev.trans he⟩)
      · exact Or.inr (Or.inr ⟨hg.trans hd, t, ht, hev.trans he⟩)
  | completeOk i0 h0 =>
    refine ⟨by simpa using hlen, ?_⟩
    intro i hi
    by_cases hii : i = i0
    · subst hii
      right; right
      have hset : (s.phases.set i TStatus.done).get? i = some TStatus.done := by
        rw [List.get?_set_eq, h0]
        rfl
      refine ⟨hset, RKind.completed, rfl, ?_⟩
      have hpairs : taskEvents (s.events ++ [DEvent.result i RKind.completed,
          DEvent.statsEmit (okStats s.stats)]) i
          = taskEvents s.events i ++ [RKind.completed] := by
        rw [taskEvents_append, taskEvents_pair]
      rcases hcases i hi with ⟨hq, he⟩ | ⟨hp, he⟩ | ⟨hd, t, ht, he⟩
      · rw [h0] at hq
        exact absurd hq (by simp)
      · exact hpairs.trans (by rw [he]; rfl)
      · rw [h0] at hd
        exact absurd hd (by simp)
    · have hg : (s.phases.set i0 TStatus.done).get? i = s.phases.get? i :=
        List.get?_set_ne _ _ (fun hh => hii hh.symm)
      have hev : taskEvents (s.events ++ [DEvent.result i0 RKind.completed,
          DEvent.statsEmit (okStats s.stats)]) i = taskEvents s.events i := by
        rw [taskEvents_append, taskEvents_pair_ne i i0 (fun hh => hii hh.symm)]
        simp
      rcases hcases i hi with ⟨hq, he⟩ | ⟨hp, he⟩ | ⟨hd, t, ht, he⟩
      · exact Or.inl ⟨hg.trans hq, hev.trans he⟩
      · exact Or.inr (Or.inl ⟨hg.trans hp, hev.trans he⟩)
      · exact Or.inr (Or.inr ⟨hg.trans hd, t, ht, hev.trans he⟩)
  | completeErr i0 h0 =>
    refine ⟨by simpa using hlen, ?_⟩
    intro i hi
    by_cases hii : i = i0
    · subst hii
      right; right
      have hset : (s.phases.set i TStatus.done).get? i = some TStatus.done := by
        rw [List.get?_set_eq, h0]
        rfl
      refine ⟨hset, RKind.error, rfl, ?_⟩
      have hpairs : taskEvents (s.events ++ [DEvent.result i RKind.error,
          DEvent.statsEmit (errStats s.stats)]) i
          = taskEvents s.events i ++ [RKind.error] := by
        rw [taskEvents_append, taskEvents_pair]
      rcases hcases i hi with ⟨hq, he⟩ | ⟨hp, he⟩ | ⟨hd, t, ht, he⟩
      · rw [h0] at hq
        exact absurd hq (by simp)
      · exact hpairs.trans (by rw [he]; rfl)
      · rw [h0] at hd
        exact absurd hd (by simp)
    · have hg : (s.phases.set i0 TStatus.done).get? i = s.phases.get? i :=
        List.get?_set_ne _ _ (fun hh => hii hh.symm)
      have hev : taskEvents (s.events ++ [DEvent.result i0 RKind.error,
          DEvent.statsEmit (errStats s.stats)]) i = taskEvents s.events i := by
        rw [taskEvents_append, taskEvents_pair_ne i i0 (fun hh => hii hh.symm)]
        simp
      rcases hcases i hi with ⟨hq, he⟩ | ⟨hp, he⟩ | ⟨hd, t, ht, he⟩
      · exact Or.inl ⟨hg.trans hq, hev.trans he⟩
      · exact Or.inr (Or.inl ⟨hg.trans hp, hev.trans he⟩)
      · exact Or.inr (Or.inr ⟨hg.trans hd, t, ht, hev.trans he⟩)

theorem taskInv_reach (n : Nat) (s : DispState)
    (h : Relation.ReflTransGen DStep (initDisp n) s) : taskInv n s := by
  induction h with
  | refl => exact taskInv_init n
  | tail hab hbc ih => exact taskInv_step n _ _ ih hbc

/-- Claim C5: in every reachable dispatcher state, the sequence of
`result` events for a task is a prefix of `[processing, terminal]`
(a `processing` result is never emitted after a terminal one, and at most
one terminal result is emitted per submission); when the batch is done
every task has exactly one terminal result, and from any reachable state
the dispatcher can always drive any task to its single terminal result
(each describe call settles, so the task eventually gets it). -/
theorem c5_task_event_lifecycle (n : Nat) (s : DispState)
    (h : Relation.ReflTransGen DStep (initDisp n) s) (i : Nat) (hi : i < n) :
    (taskEvents s.events i = []
      ∨ taskEvents s.events i = [RKind.processing]
      ∨ ∃ t, isTerminal t = true ∧ taskEvents s.events i = [RKind.processing, t])
    ∧ ((∀ p ∈ s.phases, p = TStatus.done) →
        ∃ t, isTerminal t = true ∧ taskEvents s.events i = [RKind.processing, t])
    ∧ ∃ s2, Relation.ReflTransGen DStep s s2
        ∧ ∃ t, isTerminal t = true ∧ taskEvents s2.events i = [RKind.processing, t] := by
  obtain ⟨hlen, hcases⟩ := taskInv_reach n s h
  rcases hcases i hi with ⟨hq, he⟩ | ⟨hp, he⟩ | ⟨hd, t, ht, he⟩
  · refine ⟨Or.inl he, ?_, ?_⟩
    · intro hall
      exact absurd (hall _ (List.get?_mem hq)) (by simp)
    · have hset : (s.phases.set i TStatus.processing).get? i
          = some TStatus.processing := by
        rw [List.get?_set_eq, hq]
        rfl
      refine ⟨_, Relation.ReflTransGen.tail
        (Relation.ReflTransGen.single (DStep.assign s i hq))
        (DStep.completeOk _ i hset), RKind.completed, rfl, ?_⟩
      show taskEvents ((s.events ++ [DEvent.result i RKind.processing,
          DEvent.statsEmit (assignStats s.stats)]) ++ [DEvent.result i RKind.completed,
          DEvent.statsEmit (okStats (assignStats s.stats))]) i
        = [RKind.processing, RKind.completed]
      rw [taskEvents_append, taskEvents_append, taskEvents_pair, taskEvents_pair, he]
      rfl
  · refine ⟨Or.inr (Or.inl he), ?_, ?_⟩
    · intro hall
      exact absurd (hall _ (List.get?_mem hp)) (by simp)
    · refine ⟨_, Relation.ReflTransGen.single (DStep.completeOk s i hp),
        RKind.completed, rfl, ?_⟩
      show taskEvents (s.events ++ [DEvent.result i RKind.completed,
          DEvent.statsEmit (okStats s.stats)]) i = [RKind.processing, RKind.completed]
      rw [taskEvents_append, taskEvents_pair, he]
      rfl
  · exact ⟨Or.inr (Or.inr ⟨t, ht, he⟩), fun _ => ⟨t, ht, he⟩,
      s, Relation.ReflTransGen.refl, t, ht, he⟩

/-- Witness for C5: a batch of one task at the initial state. -/
theorem c5_task_event_lifecycle_witness :
    (taskEvents (initDisp 1).events 0 = []
      ∨ taskEvents (initDisp 1).events 0 = [RKind.processing]
      ∨ ∃ t, isTerminal t = true
          ∧ taskEvents (initDisp 1).events 0 = [RKind.processing, t])
    ∧ ((∀ p ∈ (initDisp 1).phases, p = TStatus.done) →
        ∃ t, isTerminal t = true
          ∧ taskEvents (initDisp 1).events 0 = [RKind.processing, t])
    ∧ ∃ s2, Relation.ReflTransGen DStep (initDisp 1) s2
        ∧ ∃ t, isTerminal t = true
          ∧ taskEvents s2.events 0 = [RKind.processing, t] :=
  c5_task_event_lifecycle 1 (initDisp 1) Relation.ReflTransGen.refl 0 (by decide)

/-! ### Claim C7: terminal result payloads -/

/-- Claim C7 counterexample: the `result` event written by the error
branch carries neither the partition nor the worker id — both fields are
absent from the emitted object — refuting the claim that the terminal
error event carries the partition and the worker id that attempted the
task. -/
theorem c7_error_event_counterexample :
    (errorResult "img-0" "Ollama API error: timeout" 5).partition = none
    ∧ (errorResult "img-0" "Ollama API error: timeout" 5).workerThread = none :=
  ⟨rfl, rfl⟩

/-- Claim C7 amended: a task whose describe call fails gets a terminal
`error` result carrying the error message and the processing time but
not the partition or worker id (the error branch omits both fields);
a task whose describe call succeeds gets a terminal `completed` result
with a non-empty description together with its partition and worker id. -/
theorem c7_amended_result_payloads (id message : String) (t : Nat)
    (resp : Option String) (p w pt : Nat) :
    (errorResult id message t).status = RKind.error
    ∧ (errorResult id message t).error = some message
    ∧ (errorResult id message t).processingTime = some t
    ∧ (errorResult id message t).partition = none
    ∧ (errorResult id message t).workerThread = none
    ∧ (completedResult id (describeResult resp) p w pt).status = RKind.completed
    ∧ (completedResult id (describeResult resp) p w pt).description
        = some (describeResult resp)
    ∧ (completedResult id (describeResult resp) p w pt).partition = some p
    ∧ (completedResult id (describeResult resp) p w pt).workerThread = some w
    ∧ describeResult resp ≠ "" := by
  refine ⟨rfl, rfl, rfl, rfl, rfl, rfl, rfl, rfl, rfl, ?_⟩
  cases resp with
  | none => decide
  | some str =>
    show (if str = "" then "No description available" else str) ≠ ""
    by_cases h : str = ""
    · rw [if_pos h]
      decide
    · rw [if_neg h]
      exact h

end BigData
